import Mathlib

/-!
# croppingo: image loading, format dispatch and path decomposition (`io.go`)

A shallow embedding of `io.go` of package `gocrop`.

* Go strings are byte sequences; they are embedded as `List Char`, one `Char`
  per byte.  The two bytes the code inspects, `.` and `/`, are ASCII.
* Go's multiple return values `(T, error)` are embedded as pairs
  `Option T × Option GoError`, `none` standing for `nil`.
* The operating system and the image codecs are outside the package; their
  answers are parameters of the embedding (`Env`, `Codecs`), and every call the
  code makes to them is recorded in the `trace` of the `World`.
-/

namespace Gocrop

/-- A Go string: its bytes in order. -/
abbrev GoString := List Char

/-! ## `strings.Split` and `strings.Join` -/

/-- The scan of `strings.Split` for a one-byte separator: `cur` holds the bytes
of the piece being read; a separator closes the piece and opens an empty one. -/
def splitScan (sep : Char) : GoString → GoString → List GoString
  | [], cur => [cur]
  | c :: cs, cur =>
    if c = sep then cur :: splitScan sep cs [] else splitScan sep cs (cur ++ [c])

/-- The call `strings.Split(s, sep)` for a separator of one byte: the pieces of `s`
between the separators; a string without separator gives the one piece `s`. -/
def stringsSplit (s : GoString) (sep : Char) : List GoString :=
  splitScan sep s []

/-- The call `strings.Join(elems, sep)`: no element gives the empty string, one
element gives itself, otherwise the elements with `sep` between them. -/
def stringsJoin : List GoString → GoString → GoString
  | [], _ => []
  | [a], _ => a
  | a :: b :: rest, sep => a ++ sep ++ stringsJoin (b :: rest) sep

/-! ## `fileExt` -/

/-- The function `fileExt` of `io.go`:
```go
split := strings.Split(fileName, ".")
if len(split) < 2 { return fileName, "" }
return strings.Join(split[0:len(split)-1], "."), split[len(split)-1]
``` -/
def fileExt (fileName : GoString) : GoString × GoString :=
  let split := stringsSplit fileName '.'
  if split.length < 2 then
    (fileName, [])
  else
    (stringsJoin (split.take (split.length - 1)) ['.'], split.getD (split.length - 1) [])

/-! ## `path/filepath` on Unix: `Clean`, `Dir`, `Base`

`dirFileExt` calls `filepath.Dir` and `filepath.Base` of the Go standard
library.  They are embedded here for a Unix target: the separator is `/` and
there is no volume name. -/

/-- The byte test `os.IsPathSeparator` on Unix. -/
def IsPathSeparator (c : Char) : Bool := c == '/'

/-- The backtracking loop of `Clean` for a `..` element,
`for out.w > dotdot && !os.IsPathSeparator(out.index(out.w)) { out.w-- }`,
started at `out.w = w`; the value is the final `out.w`. -/
def backtrack (buf : GoString) (dotdot : Nat) : Nat → Nat
  | 0 => 0
  | w + 1 =>
    if w + 1 > dotdot ∧ IsPathSeparator (buf.getD (w + 1) '/') = false then
      backtrack buf dotdot w
    else w + 1

/-- The main loop `for r < n { switch ... }` of `filepath.Clean`.  `rest` is the
unread input `path[r:]`, `out` the bytes written so far (`out.w` is its length),
`dotdot` the index where `..` must stop.  Every round consumes at least one byte
of `rest`; the first argument bounds the number of rounds. -/
def cleanLoop (rooted : Bool) : Nat → GoString → GoString → Nat → GoString
  | 0, _, out, _ => out
  | _ + 1, [], out, _ => out
  | fuel + 1, c :: rest1, out, dotdot =>
    if IsPathSeparator c then
      -- empty path element: r++
      cleanLoop rooted fuel rest1 out dotdot
    else if c = '.' ∧ (rest1 = [] ∨ rest1.head?.map IsPathSeparator = some true) then
      -- . element: r++
      cleanLoop rooted fuel rest1 out dotdot
    else if c = '.' ∧ rest1.head? = some '.' ∧
        (rest1.tail = [] ∨ rest1.tail.head?.map IsPathSeparator = some true) then
      -- .. element: r += 2, remove to last separator
      if out.length > dotdot then
        cleanLoop rooted fuel rest1.tail (out.take (backtrack out dotdot (out.length - 1))) dotdot
      else if rooted = false then
        let out1 := if out.length > 0 then out ++ ['/'] else out
        let out2 := out1 ++ ['.', '.']
        cleanLoop rooted fuel rest1.tail out2 out2.length
      else
        cleanLoop rooted fuel rest1.tail out dotdot
    else
      -- real path element: add slash if needed, copy element
      let out1 :=
        if (rooted = true ∧ out.length ≠ 1) ∨ (rooted = false ∧ out.length ≠ 0) then out ++ ['/']
        else out
      cleanLoop rooted fuel ((c :: rest1).dropWhile (fun b => !IsPathSeparator b))
        (out1 ++ (c :: rest1).takeWhile (fun b => !IsPathSeparator b)) dotdot

/-- The function `filepath.Clean` on Unix: the empty path gives `.`; otherwise the
loop runs over the whole path (`n = len(path)` rounds suffice), starting after
the leading separator of a rooted path, and an empty result is turned into `.`. -/
def Clean (path : GoString) : GoString :=
  match path with
  | [] => ['.']
  | c :: rest =>
    let rooted := IsPathSeparator c
    let out :=
      if rooted then cleanLoop true path.length rest ['/'] 1
      else cleanLoop false path.length path [] 0
    if out.length = 0 then ['.'] else out

/-- The backward scan shared by `Dir` and `Base`,
`for i >= 0 && !os.IsPathSeparator(path[i]) { i-- }`, started at `i = k - 1`;
the value is the final `i + 1`. -/
def scanBack (path : GoString) : Nat → Nat
  | 0 => 0
  | k + 1 => if IsPathSeparator (path.getD k '/') = false then scanBack path k else k + 1

/-- The function `filepath.Dir` on Unix: `Clean(path[:i+1])`, `i` the index of the
last separator (`-1` if there is none). -/
def Dir (path : GoString) : GoString :=
  Clean (path.take (scanBack path path.length))

/-- The loop `for len(path) > 0 && os.IsPathSeparator(path[len(path)-1])` of
`Base` that strips trailing separators; the argument is the current length and
the value the final length. -/
def stripTrailing (path : GoString) : Nat → Nat
  | 0 => 0
  | k + 1 => if IsPathSeparator (path.getD k 'x') then stripTrailing path k else k + 1

/-- The function `filepath.Base` on Unix: `.` for the empty path; otherwise the
trailing separators are stripped, the last element is taken, and a path of
separators only gives `/`. -/
def Base (path : GoString) : GoString :=
  if path = [] then ['.']
  else
    let path1 := path.take (stripTrailing path path.length)
    let i1 := scanBack path1 path1.length
    let path2 := if i1 ≥ 1 then path1.drop i1 else path1
    if path2 = [] then ['/'] else path2

/-! ## `dirFileExt` -/

/-- The function `dirFileExt` of `io.go`:
```go
dir = filepath.Dir(fp)
name, ext = fileExt(filepath.Base(fp))
``` -/
def dirFileExt (fp : GoString) : GoString × GoString × GoString :=
  let dir := Dir fp
  let (name, ext) := fileExt (Base fp)
  (dir, name, ext)

/-! ## Errors -/

/-- A Go `error` value.  `errorString` is the value made by `errors.New` (a
pointer, so two calls give different values: `id` is its identity);
`wrapError` is the value made by `fmt.Errorf` with one `%w` verb, holding the
formatted message and the wrapped error. -/
inductive GoError where
  | errorString (id : Nat) (s : GoString)
  | wrapError (msg : GoString) (err : GoError)
  deriving DecidableEq

/-- The method `Error()`: the message of an error. -/
def GoError.Error : GoError → GoString
  | .errorString _ s => s
  | .wrapError msg _ => msg

/-- The function `errors.Is(err, target)`: `err` or some error of its `Unwrap` chain is `target`. -/
def errorsIs : GoError → GoError → Bool
  | .errorString id s, target => decide (GoError.errorString id s = target)
  | .wrapError msg err, target =>
    decide (GoError.wrapError msg err = target) || errorsIs err target

/-- The call `fmt.Errorf("%s: %w", s, w)`: the message is `s`, a colon, a blank and the
message of `w`; the value unwraps to `w`. -/
def fmtErrorf_s_w (s : GoString) (w : GoError) : GoError :=
  .wrapError (s ++ [':', ' '] ++ w.Error) w

/-- The variable `ErrUnsupportedFormat = errors.New("unsupported format")`. -/
def ErrUnsupportedFormat : GoError := .errorString 0 "unsupported format".toList

/-- The variable `ErrImageUncroppable = errors.New("image does not support cropping")`. -/
def ErrImageUncroppable : GoError := .errorString 1 "image does not support cropping".toList

/-- The variable `ErrImageLoadFailed = errors.New("unable to load image")`. -/
def ErrImageLoadFailed : GoError := .errorString 2 "unable to load image".toList

/-! ## The operating system: files, open handles and the trace of calls -/

/-- An `*os.File`: the handle the operating system gave and the path it was opened at.
It is the `io.Reader` and the `io.Writer` the codecs receive. -/
structure File where
  fd : Nat
  path : GoString
  deriving DecidableEq

/-- A call that leaves the package. -/
inductive Event where
  | osOpen (path : GoString) (fd : Nat)
  | osOpenFailed (path : GoString)
  | osCreate (path : GoString) (fd : Nat)
  | osCreateFailed (path : GoString)
  | decode (file : File)
  | encode (file : File)
  | close (fd : Nat)
  deriving DecidableEq

/-- The state outside the package: the handles that are open, the next handle the
operating system will give, and the calls made so far, oldest first. -/
structure World where
  openFiles : List Nat
  nextFd : Nat
  trace : List Event
  deriving DecidableEq

/-- The answers of the file system: the error of `os.Open` and of `os.Create` at a
path, `none` when the call succeeds. -/
structure Env where
  openErr : GoString → Option GoError
  createErr : GoString → Option GoError

/-- The call `os.Open(path)`: on failure the error, no handle; on success a new
handle, which is open from now on. -/
def osOpen (env : Env) (path : GoString) (w : World) : Except GoError File × World :=
  match env.openErr path with
  | some err => (.error err, { w with trace := w.trace ++ [.osOpenFailed path] })
  | none =>
    (.ok ⟨w.nextFd, path⟩,
      { openFiles := w.nextFd :: w.openFiles, nextFd := w.nextFd + 1,
        trace := w.trace ++ [.osOpen path w.nextFd] })

/-- The call `os.Create(path)`: on failure the error, no handle; on success a new
handle, which is open from now on. -/
def osCreate (env : Env) (path : GoString) (w : World) : Except GoError File × World :=
  match env.createErr path with
  | some err => (.error err, { w with trace := w.trace ++ [.osCreateFailed path] })
  | none =>
    (.ok ⟨w.nextFd, path⟩,
      { openFiles := w.nextFd :: w.openFiles, nextFd := w.nextFd + 1,
        trace := w.trace ++ [.osCreate path w.nextFd] })

/-- The call `file.Close()`: the handle is no longer open.  (The code drops the result.) -/
def fileClose (file : File) (w : World) : World :=
  { w with openFiles := w.openFiles.erase file.fd, trace := w.trace ++ [.close file.fd] }

/-! ## The codec registry -/

section Loader
variable {Image CImage Opts : Type}

/-- The functions of `image/png`, `image/gif` and `golang.org/x/image/tiff` the
registry refers to.  A decoder answers `(image.Image, error)`; an encoder answers
`error`; `gif.Encode` and `tiff.Encode` take an options pointer. -/
structure Codecs (Image Opts : Type) where
  pngDecode : File → Option Image × Option GoError
  pngEncode : File → Option Image → Option GoError
  gifDecode : File → Option Image × Option GoError
  gifEncode : File → Option Image → Option Opts → Option GoError
  tiffDecode : File → Option Image × Option GoError
  tiffEncode : File → Option Image → Option Opts → Option GoError

/-- The struct `imageCoder`: a decode function and an encode function. -/
structure imageCoder (Image : Type) where
  decode : File → Option Image × Option GoError
  encode : File → Option Image → Option GoError

/-- The map `imageCoders`: the lookup `imageCoders[key]`, `none` when `key` is not a
key of the map literal.  The keys are `png`, `gif` and `tiff`. -/
def imageCoders (lib : Codecs Image Opts) (key : GoString) : Option (imageCoder Image) :=
  if key = ['p', 'n', 'g'] then
    some { decode := lib.pngDecode, encode := lib.pngEncode }
  else if key = ['g', 'i', 'f'] then
    some { decode := lib.gifDecode, encode := fun w m => lib.gifEncode w m none }
  else if key = ['t', 'i', 'f', 'f'] then
    some { decode := lib.tiffDecode, encode := fun w m => lib.tiffEncode w m none }
  else none

/-- Modelled from the spec: the struct `Croppable` (the spec's `ImageHandle`) is
declared outside `io.go`; its fields are the five of the composite literal in
`LoadCroppable`: directory, base name, format, the narrowed image and the
encode function bound at load time. -/
structure Croppable (Image CImage : Type) where
  Dir : GoString
  Name : GoString
  Format : GoString
  Cropper : CImage
  Encode : File → Option Image → Option GoError

/-- The type assertion `img.(CroppableImage)` in its two-result form.  The interface
`CroppableImage` is declared outside `io.go`: `narrow` says which images
satisfy it.  A nil image satisfies no interface. -/
def assertCroppable (narrow : Image → Option CImage) : Option Image → Option CImage
  | none => none
  | some img => narrow img

/-- The call `coder.decode(file)`, recorded in the trace. -/
def callDecode (coder : imageCoder Image) (file : File) (w : World) :
    (Option Image × Option GoError) × World :=
  (coder.decode file, { w with trace := w.trace ++ [.decode file] })

/-- The call `encode(fd, img)`, recorded in the trace. -/
def callEncode (encode : File → Option Image → Option GoError) (fd : File) (img : Option Image)
    (w : World) : Option GoError × World :=
  (encode fd img, { w with trace := w.trace ++ [.encode fd] })

/-! ## `LoadCroppable` and `saveImage` -/

/-- The body of `LoadCroppable` after `defer file.Close()`: path decomposition,
registry lookup, decoding, type assertion, construction of the handle. -/
def loadOpened (lib : Codecs Image Opts) (narrow : Image → Option CImage) (path : GoString)
    (file : File) (w : World) : (Option (Croppable Image CImage) × Option GoError) × World :=
  let (dir, name, ext) := dirFileExt path
  match imageCoders lib ext with
  | none => ((none, some ErrUnsupportedFormat), w)
  | some coder =>
    match callDecode coder file w with
    | ((_, some err), w1) => ((none, some (fmtErrorf_s_w err.Error ErrImageLoadFailed)), w1)
    | ((img, none), w1) =>
      match assertCroppable narrow img with
      | none => ((none, some ErrImageUncroppable), w1)
      | some simg =>
        ((some { Dir := dir, Name := name, Format := ext, Cropper := simg, Encode := coder.encode },
          none), w1)

/-- The function `LoadCroppable` of `io.go`.  An error of `os.Open` is returned as
it is; otherwise the deferred `file.Close()` runs after the body, whatever
the body returns. -/
def LoadCroppable (env : Env) (lib : Codecs Image Opts) (narrow : Image → Option CImage)
    (path : GoString) (w : World) : (Option (Croppable Image CImage) × Option GoError) × World :=
  match osOpen env path w with
  | (.error err, w1) => ((none, some err), w1)
  | (.ok file, w1) =>
    let (res, w2) := loadOpened lib narrow path file w1
    (res, fileClose file w2)

/-- The function `saveImage` of `io.go`.  An error of `os.Create` is returned as it
is; otherwise `encode(fd, img)` is the result and the deferred `fd.Close()` runs
after it. -/
def saveImage (env : Env) (fp : GoString) (img : Option Image)
    (encode : File → Option Image → Option GoError) (w : World) : Option GoError × World :=
  match osCreate env fp w with
  | (.error err, w1) => (some err, w1)
  | (.ok fd, w1) =>
    let (res, w2) := callEncode encode fd img w1
    (res, fileClose fd w2)

/-! ## A small environment for the worked examples

Images are numbers, and the even ones satisfy `CroppableImage`. -/

/-- A file system where `/missing.bmp` cannot be opened and `/ro/out.png` cannot be created. -/
def demoEnv : Env where
  openErr := fun p =>
    if p = "/missing.bmp".toList then
      some (.errorString 7 "open /missing.bmp: no such file or directory".toList)
    else none
  createErr := fun p =>
    if p = "/ro/out.png".toList then
      some (.errorString 8 "open /ro/out.png: permission denied".toList)
    else none

/-- Codecs that reject `/img/bad.png`, decode `/img/odd.png` to the image `3` and any
other file to the image `4`; the encoders fail on the image `5`. -/
def demoLib : Codecs Nat Unit where
  pngDecode := fun f =>
    if f.path = "/img/bad.png".toList then
      (none, some (.errorString 9 "png: invalid format: not a PNG file".toList))
    else if f.path = "/img/odd.png".toList then (some 3, none)
    else (some 4, none)
  pngEncode := fun _ m => if m = some 5 then some (.errorString 10 "png: encode".toList) else none
  gifDecode := fun _ => (some 4, none)
  gifEncode := fun _ m _ => if m = some 5 then some (.errorString 11 "gif: encode".toList) else none
  tiffDecode := fun _ => (some 4, none)
  tiffEncode := fun _ m _ => if m = some 5 then some (.errorString 12 "tiff: encode".toList) else none

/-- The even images can be cropped. -/
def demoNarrow (n : Nat) : Option Nat := if n % 2 = 0 then some n else none

/-- A world with one handle open and two calls in the trace. -/
def demoWorld : World := ⟨[2], 3, [.osOpen "/tmp/x".toList 2, .osOpenFailed "/tmp/y".toList]⟩

end Loader

end Gocrop

/-! # Theorems -/

namespace Gocrop

/-! ## Facts about `strings.Split` and `strings.Join` -/

theorem splitScan_ne_nil (sep : Char) (s cur : GoString) : splitScan sep s cur ≠ [] := by
  induction s generalizing cur with
  | nil => simp [splitScan]
  | cons c cs ih =>
    unfold splitScan
    split
    · simp
    · exact ih _

theorem splitScan_no_sep (sep : Char) (s cur : GoString) (h : sep ∉ s) :
    splitScan sep s cur = [cur ++ s] := by
  induction s generalizing cur with
  | nil => simp [splitScan]
  | cons c cs ih =>
    have hc : c ≠ sep := fun e => h (by simp [e])
    have hcs : sep ∉ cs := fun e => h (by simp [e])
    simp [splitScan, hc, ih _ hcs]

theorem splitScan_append_sep (sep : Char) (a b cur : GoString) :
    splitScan sep (a ++ sep :: b) cur = splitScan sep a cur ++ splitScan sep b [] := by
  induction a generalizing cur with
  | nil => simp [splitScan]
  | cons c cs ih =>
    by_cases hc : c = sep
    · simp [splitScan, hc, ih]
    · simp [splitScan, hc, ih]

theorem stringsJoin_cons (a : GoString) (l : List GoString) (sep : GoString) (h : l ≠ []) :
    stringsJoin (a :: l) sep = a ++ sep ++ stringsJoin l sep := by
  cases l with
  | nil => exact absurd rfl h
  | cons b rest => rfl

theorem stringsJoin_splitScan (sep : Char) (s cur : GoString) :
    stringsJoin (splitScan sep s cur) [sep] = cur ++ s := by
  induction s generalizing cur with
  | nil => simp [splitScan, stringsJoin]
  | cons c cs ih =>
    by_cases hc : c = sep
    · simp [splitScan, hc, stringsJoin_cons _ _ _ (splitScan_ne_nil sep cs []), ih]
    · simp [splitScan, hc, ih]

theorem exists_last_sep (sep : Char) (s : GoString) (h : sep ∈ s) :
    ∃ a b, s = a ++ sep :: b ∧ sep ∉ b := by
  induction s with
  | nil => simp at h
  | cons c cs ih =>
    by_cases hcs : sep ∈ cs
    · obtain ⟨a, b, hab, hb⟩ := ih hcs
      exact ⟨c :: a, b, by simp [hab], hb⟩
    · have hc : sep = c := by
        rcases List.mem_cons.mp h with h1 | h1
        · exact h1
        · exact absurd h1 hcs
      exact ⟨[], cs, by simp [hc], hcs⟩

/-! ## `fileExt` -/

theorem fileExt_no_dot (f : GoString) (h : '.' ∉ f) : fileExt f = (f, []) := by
  simp [fileExt, stringsSplit, splitScan_no_sep _ _ _ h]

theorem fileExt_split (name ext : GoString) (h : '.' ∉ ext) :
    fileExt (name ++ '.' :: ext) = (name, ext) := by
  have hne := splitScan_ne_nil '.' name []
  have hlen : 0 < (splitScan '.' name []).length := List.length_pos.mpr hne
  have hj := stringsJoin_splitScan '.' name []
  simp only [List.nil_append] at hj
  simp only [fileExt, stringsSplit, splitScan_append_sep, splitScan_no_sep _ _ _ h,
    List.nil_append, List.length_append, List.length_singleton]
  rw [if_neg (by omega)]
  simp [hj, List.getD_append_right]

/-- C1: `fileExt` splits at the last dot.  A name without a dot is returned whole
with an empty extension; a name written as `name ++ "." ++ ext` with no dot in
`ext` gives `(name, ext)`, whatever dots `name` holds, and every name with a dot
can be written so; `a.b.c.png` gives `a.b.c` and `png`. -/
theorem fileExt_splits_at_last_dot (f : GoString) :
    ('.' ∉ f → fileExt f = (f, [])) ∧
    (∀ name ext, f = name ++ '.' :: ext → '.' ∉ ext → fileExt f = (name, ext)) ∧
    ('.' ∈ f → ∃ name ext, f = name ++ '.' :: ext ∧ '.' ∉ ext ∧ fileExt f = (name, ext)) ∧
    fileExt "a.b.c.png".toList = ("a.b.c".toList, "png".toList) := by
  refine ⟨fileExt_no_dot f, ?_, ?_, by decide⟩
  · intro name ext hf hext
    rw [hf]
    exact fileExt_split name ext hext
  · intro h
    obtain ⟨a, b, hab, hb⟩ := exists_last_sep '.' f h
    exact ⟨a, b, hab, hb, by rw [hab]; exact fileExt_split a b hb⟩

/-- Witness of C1 at `x.tar.gz` and at `noext`. -/
theorem fileExt_splits_at_last_dot_witness :
    fileExt "x.tar.gz".toList = ("x.tar".toList, "gz".toList) ∧
    fileExt "noext".toList = ("noext".toList, []) :=
  ⟨(fileExt_splits_at_last_dot "x.tar.gz".toList).2.1 "x.tar".toList "gz".toList
      (by decide) (by decide),
   (fileExt_splits_at_last_dot "noext".toList).1 (by decide)⟩

/-- C10: `fileExt` loses nothing.  With `(name, ext) = fileExt f`: a name with a dot
is `name ++ "." ++ ext`, a name without a dot is `name` and `ext` is empty;
`.bashrc` has the empty name and `file.` the empty extension. -/
theorem fileExt_lossless (f : GoString) :
    ('.' ∈ f → (fileExt f).1 ++ ['.'] ++ (fileExt f).2 = f) ∧
    ('.' ∉ f → (fileExt f).1 = f ∧ (fileExt f).2 = []) ∧
    fileExt ".bashrc".toList = ([], "bashrc".toList) ∧
    fileExt "file.".toList = ("file".toList, []) := by
  refine ⟨?_, ?_, by decide, by decide⟩
  · intro h
    obtain ⟨a, b, hab, hb⟩ := exists_last_sep '.' f h
    rw [hab, fileExt_split a b hb]
    simp
  · intro h
    rw [fileExt_no_dot f h]
    exact ⟨rfl, rfl⟩

/-- Witness of C10 at `a.b.c.png` and at `noext`. -/
theorem fileExt_lossless_witness :
    (fileExt "a.b.c.png".toList).1 ++ ['.'] ++ (fileExt "a.b.c.png".toList).2
      = "a.b.c.png".toList ∧
    ((fileExt "noext".toList).1 = "noext".toList ∧ (fileExt "noext".toList).2 = []) :=
  ⟨(fileExt_lossless "a.b.c.png".toList).1 (by decide),
   (fileExt_lossless "noext".toList).2.1 (by decide)⟩

/-! ## `filepath.Clean`, `filepath.Dir`, `filepath.Base` -/

theorem takeWhile_append_sep (l : GoString) :
    (l ++ ['/']).takeWhile (fun b => !IsPathSeparator b) =
      l.takeWhile (fun b => !IsPathSeparator b) := by
  induction l with
  | nil => simp [IsPathSeparator]
  | cons c cs ih =>
    by_cases hc : IsPathSeparator c = true
    · simp [List.takeWhile, hc]
    · simp only [Bool.not_eq_true] at hc
      simp [List.takeWhile_cons, hc, ih]

theorem dropWhile_append_sep (l : GoString) :
    (l ++ ['/']).dropWhile (fun b => !IsPathSeparator b) =
      l.dropWhile (fun b => !IsPathSeparator b) ++ ['/'] := by
  induction l with
  | nil => simp [IsPathSeparator]
  | cons c cs ih =>
    by_cases hc : IsPathSeparator c = true
    · simp [List.dropWhile, hc]
    · simp only [Bool.not_eq_true] at hc
      simp [List.dropWhile_cons, hc, ih]

theorem length_dropWhile_le (l : GoString) (q : Char → Bool) :
    (l.dropWhile q).length ≤ l.length := by
  induction l with
  | nil => simp
  | cons c cs ih =>
    simp only [List.dropWhile]
    split
    · simp only [List.length_cons]; omega
    · simp

theorem elementEnd_append_sep (l : GoString) :
    (l ++ ['/'] = [] ∨ (l ++ ['/']).head?.map IsPathSeparator = some true) ↔
      (l = [] ∨ l.head?.map IsPathSeparator = some true) := by
  cases l <;> simp [IsPathSeparator]

theorem dotdot_append_sep (l : GoString) :
    ((l ++ ['/']).head? = some '.' ∧
        ((l ++ ['/']).tail = [] ∨ (l ++ ['/']).tail.head?.map IsPathSeparator = some true)) ↔
      (l.head? = some '.' ∧ (l.tail = [] ∨ l.tail.head?.map IsPathSeparator = some true)) := by
  cases l with
  | nil => simp
  | cons x xs =>
    simp only [List.cons_append, List.head?_cons, List.tail_cons]
    rw [elementEnd_append_sep]

/-- A trailing separator is an empty path element: the loop of `Clean` skips it. -/
theorem cleanLoop_trailing_sep (rooted : Bool) :
    ∀ (fuel : Nat) (rest out : GoString) (dd : Nat), rest.length ≤ fuel →
      cleanLoop rooted (fuel + 1) (rest ++ ['/']) out dd = cleanLoop rooted fuel rest out dd := by
  intro fuel
  induction fuel with
  | zero =>
    intro rest out dd h
    have : rest = [] := List.length_eq_zero.mp (by omega)
    subst this
    simp [cleanLoop, IsPathSeparator]
  | succ f ih =>
    intro rest out dd h
    cases rest with
    | nil => simp [cleanLoop, IsPathSeparator]
    | cons c rest1 =>
      have h1 : rest1.length ≤ f := by simpa using h
      simp only [List.cons_append]
      rw [cleanLoop.eq_3, cleanLoop.eq_3]
      simp only [elementEnd_append_sep, dotdot_append_sep]
      by_cases hsep : IsPathSeparator c = true
      · rw [if_pos hsep, if_pos hsep]
        exact ih rest1 out dd h1
      · rw [if_neg hsep, if_neg hsep]
        by_cases hdot : c = '.' ∧ (rest1 = [] ∨ rest1.head?.map IsPathSeparator = some true)
        · rw [if_pos hdot, if_pos hdot]
          exact ih rest1 out dd h1
        · rw [if_neg hdot, if_neg hdot]
          by_cases hdd : c = '.' ∧ rest1.head? = some '.' ∧
              (rest1.tail = [] ∨ rest1.tail.head?.map IsPathSeparator = some true)
          · rw [if_pos hdd, if_pos hdd]
            cases rest1 with
            | nil => simp at hdd
            | cons x xs =>
              have h2 : xs.length ≤ f := by
                simp only [List.length_cons] at h1
                omega
              simp only [List.cons_append, List.tail_cons]
              split_ifs <;> exact ih xs _ _ h2
          · rw [if_neg hdd, if_neg hdd]
            have hc : IsPathSeparator c = false := by simpa using hsep
            have hlen : ((c :: rest1).dropWhile (fun b => !IsPathSeparator b)).length ≤ f := by
              simp only [List.dropWhile_cons, hc, Bool.not_false, if_true]
              exact le_trans (length_dropWhile_le rest1 _) h1
            have e1 : c :: (rest1 ++ ['/']) = (c :: rest1) ++ ['/'] := rfl
            simp only [e1, takeWhile_append_sep, dropWhile_append_sep]
            exact ih _ _ _ hlen

/-- Every round of the loop of `Clean` consumes a byte: any bound on the number of
rounds that is at least the length of the unread input gives the same result,
so the bound `len(path)` used by `Clean` never cuts the loop short. -/
theorem cleanLoop_rounds (rooted : Bool) :
    ∀ (f1 f2 : Nat) (rest out : GoString) (dd : Nat), rest.length ≤ f1 → rest.length ≤ f2 →
      cleanLoop rooted f1 rest out dd = cleanLoop rooted f2 rest out dd := by
  intro f1
  induction f1 with
  | zero =>
    intro f2 rest out dd h1 _
    have : rest = [] := List.length_eq_zero.mp (by omega)
    subst this
    cases f2 <;> simp [cleanLoop]
  | succ f ih =>
    intro f2 rest out dd h1 h2
    cases rest with
    | nil => cases f2 <;> simp [cleanLoop]
    | cons c rest1 =>
      cases f2 with
      | zero => simp at h2
      | succ g =>
        have l1 : rest1.length ≤ f := by simpa using h1
        have l2 : rest1.length ≤ g := by simpa using h2
        have t1 : rest1.tail.length ≤ f := by simp only [List.length_tail]; omega
        have t2 : rest1.tail.length ≤ g := by simp only [List.length_tail]; omega
        rw [cleanLoop.eq_3, cleanLoop.eq_3]
        by_cases hsep : IsPathSeparator c = true
        · rw [if_pos hsep, if_pos hsep]
          exact ih g rest1 out dd l1 l2
        · rw [if_neg hsep, if_neg hsep]
          have hc : IsPathSeparator c = false := by simpa using hsep
          have d0 : ((c :: rest1).dropWhile (fun b => !IsPathSeparator b)).length
              ≤ rest1.length := by
            simp only [List.dropWhile_cons, hc, Bool.not_false, if_true]
            exact length_dropWhile_le rest1 _
          by_cases hdot : c = '.' ∧ (rest1 = [] ∨ rest1.head?.map IsPathSeparator = some true)
          · rw [if_pos hdot, if_pos hdot]
            exact ih g rest1 out dd l1 l2
          · rw [if_neg hdot, if_neg hdot]
            by_cases hdd : c = '.' ∧ rest1.head? = some '.' ∧
                (rest1.tail = [] ∨ rest1.tail.head?.map IsPathSeparator = some true)
            · rw [if_pos hdd, if_pos hdd]
              split_ifs <;> exact ih g _ _ _ t1 t2
            · rw [if_neg hdd, if_neg hdd]
              exact ih g _ _ _ (le_trans d0 l1) (le_trans d0 l2)

theorem Clean_trailing_sep (d : GoString) (hd : d ≠ []) : Clean (d ++ ['/']) = Clean d := by
  cases d with
  | nil => exact absurd rfl hd
  | cons c rest =>
    have e1 : cleanLoop true ((c :: rest).length + 1) (rest ++ ['/']) ['/'] 1 =
        cleanLoop true (c :: rest).length rest ['/'] 1 :=
      cleanLoop_trailing_sep true _ rest _ _ (by simp)
    have e2 : cleanLoop false ((c :: rest).length + 1) ((c :: rest) ++ ['/']) [] 0 =
        cleanLoop false (c :: rest).length (c :: rest) [] 0 :=
      cleanLoop_trailing_sep false _ _ _ _ (le_refl _)
    simp only [List.cons_append, List.length_cons, List.length_append, List.length_singleton,
      List.length_nil, Clean] at e1 e2 ⊢
    rw [e1, e2]

theorem scanBack_no_sep (p : GoString) (h : '/' ∉ p) :
    ∀ k, k ≤ p.length → scanBack p k = 0 := by
  intro k
  induction k with
  | zero => intro _; rfl
  | succ k ih =>
    intro hk
    have hlt : k < p.length := by omega
    have hne : p.getD k '/' ≠ '/' := by
      rw [List.getD_eq_getElem _ _ hlt]
      intro e
      exact h (e ▸ List.getElem_mem _)
    have : IsPathSeparator (p.getD k '/') = false := by simpa [IsPathSeparator] using hne
    rw [scanBack, if_pos this]
    exact ih (by omega)

theorem scanBack_last_sep (d seg : GoString) (h : '/' ∉ seg) :
    ∀ k, k ≤ seg.length → scanBack (d ++ '/' :: seg) (d.length + 1 + k) = d.length + 1 := by
  intro k
  induction k with
  | zero =>
    intro _
    have : IsPathSeparator ((d ++ '/' :: seg).getD d.length '/') = true := by
      simp [IsPathSeparator, List.getD_eq_getElem?_getD, List.getElem_append_right]
    simp only [Nat.add_zero, scanBack, this]
    simp
  | succ k ih =>
    intro hk
    have hlt : k < seg.length := by omega
    have hget : (d ++ '/' :: seg).getD (d.length + 1 + k) '/' = seg[k] := by
      have e : d ++ '/' :: seg = (d ++ ['/']) ++ seg := by simp
      rw [e, List.getD_eq_getElem?_getD, List.getElem?_append_right (by simp)]
      simp [Nat.add_sub_cancel_left, hlt]
    have hne : seg[k] ≠ '/' := fun e => h (e ▸ List.getElem_mem _)
    have : IsPathSeparator ((d ++ '/' :: seg).getD (d.length + 1 + k) '/') = false := by
      rw [hget]; simpa [IsPathSeparator] using hne
    have e2 : d.length + 1 + (k + 1) = (d.length + 1 + k) + 1 := by omega
    rw [e2, scanBack, if_pos this]
    exact ih (by omega)

/-- The embedding of `Clean` agrees with the table of the Go documentation and tests. -/
theorem Clean_table :
    Clean "".toList = ".".toList ∧
    Clean "/".toList = "/".toList ∧
    Clean "abc".toList = "abc".toList ∧
    Clean "a//b".toList = "a/b".toList ∧
    Clean "a/./b/".toList = "a/b".toList ∧
    Clean "a/../b".toList = "b".toList ∧
    Clean "a/b/..".toList = "a".toList ∧
    Clean "../a".toList = "../a".toList ∧
    Clean "/../a".toList = "/a".toList ∧
    Clean "..a/.b".toList = "..a/.b".toList ∧
    Clean "abc/def/../../..".toList = "..".toList ∧
    Clean "/abc/def/../../..".toList = "/".toList ∧
    Clean "abc/def/ghi/../jkl".toList = "abc/def/jkl".toList ∧
    Clean "abc//./../def".toList = "def".toList ∧
    Clean "abc/../../././../def".toList = "../../def".toList := by
  decide

/-- The embedding of `Dir` and `Base` agrees with the examples of the Go documentation. -/
theorem Dir_Base_table :
    Dir "/foo/bar/baz.js".toList = "/foo/bar".toList ∧
    Dir "/foo/bar/baz/".toList = "/foo/bar/baz".toList ∧
    Dir "dev.txt".toList = ".".toList ∧
    Dir "../todo.txt".toList = "..".toList ∧
    Dir "/".toList = "/".toList ∧
    Dir "".toList = ".".toList ∧
    Dir "/a".toList = "/".toList ∧
    Dir "a//b".toList = "a".toList ∧
    Base "/foo/bar/baz.js".toList = "baz.js".toList ∧
    Base "/foo/bar/baz/".toList = "baz".toList ∧
    Base "dev.txt".toList = "dev.txt".toList ∧
    Base "/".toList = "/".toList ∧
    Base "///".toList = "/".toList ∧
    Base "".toList = ".".toList := by
  decide

theorem Dir_no_sep (p : GoString) (h : '/' ∉ p) : Dir p = ['.'] := by
  simp [Dir, scanBack_no_sep p h p.length (le_refl _), Clean]

theorem Dir_split (d seg : GoString) (h : '/' ∉ seg) :
    Dir (d ++ '/' :: seg) = Clean (d ++ ['/']) := by
  have hlen : (d ++ '/' :: seg).length = d.length + 1 + seg.length := by
    simp only [List.length_append, List.length_cons]; omega
  have e : d ++ '/' :: seg = (d ++ ['/']) ++ seg := by simp
  have hl : (d ++ ['/']).length = d.length + 1 := by simp
  rw [Dir, hlen, scanBack_last_sep d seg h seg.length (le_refl _), e, ← hl, List.take_left]

theorem stripTrailing_of_last (p : GoString) (k : Nat) (hk : p.length = k + 1)
    (h : IsPathSeparator (p.getD k 'x') = false) : stripTrailing p p.length = p.length := by
  rw [hk, stripTrailing, h]
  simp

theorem last_not_sep (p : GoString) (k : Nat) (hk : p.length = k + 1)
    (h : ∀ c ∈ p.drop k, c ≠ '/') : IsPathSeparator (p.getD k 'x') = false := by
  have hlt : k < p.length := by omega
  rw [List.getD_eq_getElem _ _ hlt]
  have hm : p[k] ∈ p.drop k := by
    have e := List.drop_eq_getElem_cons hlt
    rw [e]
    exact List.mem_cons_self _ _
  simpa [IsPathSeparator] using h _ hm

theorem Base_no_sep (p : GoString) (h : '/' ∉ p) (hne : p ≠ []) : Base p = p := by
  obtain ⟨k, hk⟩ : ∃ k, p.length = k + 1 :=
    ⟨p.length - 1, by have := List.length_pos.mpr hne; omega⟩
  have hs := stripTrailing_of_last p k hk
    (last_not_sep p k hk (fun c hc e => h (e ▸ List.mem_of_mem_drop hc)))
  simp [Base, hne, hs, scanBack_no_sep p h p.length (le_refl _)]

theorem Base_split (d seg : GoString) (h : '/' ∉ seg) (hne : seg ≠ []) :
    Base (d ++ '/' :: seg) = seg := by
  have hlen : (d ++ '/' :: seg).length = d.length + 1 + seg.length := by
    simp only [List.length_append, List.length_cons]; omega
  have hpos := List.length_pos.mpr hne
  have hk : (d ++ '/' :: seg).length = (d.length + 1 + (seg.length - 1)) + 1 := by omega
  have e : d ++ '/' :: seg = (d ++ ['/']) ++ seg := by simp
  have hl : (d ++ ['/']).length = d.length + 1 := by simp
  have hdrop : ∀ c ∈ (d ++ '/' :: seg).drop (d.length + 1 + (seg.length - 1)), c ≠ '/' := by
    intro c hc ec
    rw [e, ← hl, List.drop_append] at hc
    exact h (ec ▸ List.mem_of_mem_drop hc)
  have hs := stripTrailing_of_last _ _ hk (last_not_sep _ _ hk hdrop)
  have hnil : d ++ '/' :: seg ≠ [] := by simp
  have hd : (d ++ '/' :: seg).drop (d.length + 1) = seg := by
    rw [e, ← hl, List.drop_left]
  simp only [Base, hnil, if_false, hs, List.take_length]
  rw [hlen, scanBack_last_sep d seg h seg.length (le_refl _)]
  simp [hd, hne]

/-! ## `dirFileExt` -/

/-- C7, as stated, fails: in `/a` everything before the final separator is the empty
string, and the directory that `dirFileExt` returns is `/`. -/
theorem dirFileExt_prefix_counterexample :
    ¬ (∀ p d seg : GoString, p = d ++ '/' :: seg → '/' ∉ seg → (dirFileExt p).1 = d) := by
  intro h
  have h1 := h "/a".toList [] "a".toList (by decide) (by decide)
  revert h1
  decide

/-- C7, amended: the directory of `dirFileExt p` is `filepath.Dir p` and the name and
extension are `fileExt (filepath.Base p)`.  Without a separator in `p` the
directory is `.`; with `p = d ++ "/" ++ seg` and no separator in `seg`, the
directory is `Clean (d ++ "/")`, which is `d` whenever `d` is not empty and
`Clean` leaves `d` unchanged.  The name and extension are `fileExt seg` when `seg`
is not empty, and `fileExt p` when `p` is not empty and has no separator.
The two paths of the specification decompose as it says. -/
theorem dirFileExt_decomposition (p : GoString) :
    dirFileExt p = (Dir p, fileExt (Base p)) ∧
    ('/' ∉ p → (dirFileExt p).1 = ['.']) ∧
    (∀ d seg, p = d ++ '/' :: seg → '/' ∉ seg → (dirFileExt p).1 = Clean (d ++ ['/'])) ∧
    (∀ d seg, p = d ++ '/' :: seg → '/' ∉ seg → d ≠ [] → Clean d = d →
      (dirFileExt p).1 = d) ∧
    (∀ d seg, p = d ++ '/' :: seg → '/' ∉ seg → seg ≠ [] → (dirFileExt p).2 = fileExt seg) ∧
    ('/' ∉ p → p ≠ [] → (dirFileExt p).2 = fileExt p) ∧
    dirFileExt "/a/b/c.image.png".toList = ("/a/b".toList, "c.image".toList, "png".toList) ∧
    dirFileExt "/a/b/noext".toList = ("/a/b".toList, "noext".toList, []) := by
  refine ⟨rfl, ?_, ?_, ?_, ?_, ?_, by decide, by decide⟩
  · intro h
    exact Dir_no_sep p h
  · intro d seg hp hseg
    rw [hp]
    exact Dir_split d seg hseg
  · intro d seg hp hseg hd hclean
    rw [hp]
    show Dir (d ++ '/' :: seg) = d
    rw [Dir_split d seg hseg, Clean_trailing_sep d hd, hclean]
  · intro d seg hp hseg hne
    rw [hp]
    show fileExt (Base (d ++ '/' :: seg)) = fileExt seg
    rw [Base_split d seg hseg hne]
  · intro h hne
    show fileExt (Base p) = fileExt p
    rw [Base_no_sep p h hne]

/-- Witness of C7 at `/usr/share/img.tar.gz` and at `photo.png`. -/
theorem dirFileExt_decomposition_witness :
    (dirFileExt "/usr/share/img.tar.gz".toList).1 = "/usr/share".toList ∧
    (dirFileExt "/usr/share/img.tar.gz".toList).2 = fileExt "img.tar.gz".toList ∧
    (dirFileExt "photo.png".toList).1 = ['.'] ∧
    (dirFileExt "photo.png".toList).2 = fileExt "photo.png".toList :=
  ⟨(dirFileExt_decomposition "/usr/share/img.tar.gz".toList).2.2.2.1
      "/usr/share".toList "img.tar.gz".toList (by decide) (by decide) (by decide) (by decide),
   (dirFileExt_decomposition "/usr/share/img.tar.gz".toList).2.2.2.2.1
      "/usr/share".toList "img.tar.gz".toList (by decide) (by decide) (by decide),
   (dirFileExt_decomposition "photo.png".toList).2.1 (by decide),
   (dirFileExt_decomposition "photo.png".toList).2.2.2.2.2.1 (by decide) (by decide)⟩

/-! ## `LoadCroppable` -/

section LoaderFacts
variable {Image CImage Opts : Type}

theorem osOpen_ok (env : Env) (path : GoString) (w : World) (h : env.openErr path = none) :
    osOpen env path w =
      (.ok ⟨w.nextFd, path⟩,
        { openFiles := w.nextFd :: w.openFiles, nextFd := w.nextFd + 1,
          trace := w.trace ++ [.osOpen path w.nextFd] }) := by
  simp [osOpen, h]

theorem osOpen_error (env : Env) (path : GoString) (w : World) (e : GoError)
    (h : env.openErr path = some e) :
    osOpen env path w = (.error e, { w with trace := w.trace ++ [.osOpenFailed path] }) := by
  simp [osOpen, h]

/-- After a successful open, `LoadCroppable` is its body followed by the deferred close. -/
theorem LoadCroppable_opened (env : Env) (lib : Codecs Image Opts)
    (narrow : Image → Option CImage) (path : GoString) (w : World)
    (h : env.openErr path = none) :
    LoadCroppable env lib narrow path w =
      ((loadOpened lib narrow path ⟨w.nextFd, path⟩
          { openFiles := w.nextFd :: w.openFiles, nextFd := w.nextFd + 1,
            trace := w.trace ++ [.osOpen path w.nextFd] }).1,
        fileClose ⟨w.nextFd, path⟩
          (loadOpened lib narrow path ⟨w.nextFd, path⟩
            { openFiles := w.nextFd :: w.openFiles, nextFd := w.nextFd + 1,
              trace := w.trace ++ [.osOpen path w.nextFd] }).2) := by
  simp [LoadCroppable, osOpen_ok env path w h]

theorem loadOpened_unsupported (lib : Codecs Image Opts) (narrow : Image → Option CImage)
    (path : GoString) (file : File) (w : World)
    (hreg : imageCoders lib (dirFileExt path).2.2 = none) :
    loadOpened lib narrow path file w = ((none, some ErrUnsupportedFormat), w) := by
  simp [loadOpened, hreg]

theorem loadOpened_decode_error (lib : Codecs Image Opts) (narrow : Image → Option CImage)
    (path : GoString) (file : File) (w : World) (coder : imageCoder Image) (e : GoError)
    (hreg : imageCoders lib (dirFileExt path).2.2 = some coder)
    (hdec : (coder.decode file).2 = some e) :
    loadOpened lib narrow path file w =
      ((none, some (fmtErrorf_s_w e.Error ErrImageLoadFailed)),
        { w with trace := w.trace ++ [.decode file] }) := by
  rcases hd : coder.decode file with ⟨img, err⟩
  rw [hd] at hdec
  simp only at hdec
  subst hdec
  simp [loadOpened, hreg, callDecode, hd]

theorem loadOpened_uncroppable (lib : Codecs Image Opts) (narrow : Image → Option CImage)
    (path : GoString) (file : File) (w : World) (coder : imageCoder Image) (img : Option Image)
    (hreg : imageCoders lib (dirFileExt path).2.2 = some coder)
    (hdec : coder.decode file = (img, none))
    (hn : assertCroppable narrow img = none) :
    loadOpened lib narrow path file w =
      ((none, some ErrImageUncroppable), { w with trace := w.trace ++ [.decode file] }) := by
  simp [loadOpened, hreg, callDecode, hdec, hn]

theorem loadOpened_ok (lib : Codecs Image Opts) (narrow : Image → Option CImage)
    (path : GoString) (file : File) (w : World) (coder : imageCoder Image) (img : Option Image)
    (simg : CImage)
    (hreg : imageCoders lib (dirFileExt path).2.2 = some coder)
    (hdec : coder.decode file = (img, none))
    (hn : assertCroppable narrow img = some simg) :
    loadOpened lib narrow path file w =
      ((some { Dir := (dirFileExt path).1, Name := (dirFileExt path).2.1,
               Format := (dirFileExt path).2.2, Cropper := simg, Encode := coder.encode }, none),
        { w with trace := w.trace ++ [.decode file] }) := by
  simp [loadOpened, hreg, callDecode, hdec, hn]

/-- The body of `LoadCroppable` changes the world only by appending to the trace. -/
theorem loadOpened_world (lib : Codecs Image Opts) (narrow : Image → Option CImage)
    (path : GoString) (file : File) (w : World) :
    (loadOpened lib narrow path file w).2.openFiles = w.openFiles ∧
    (loadOpened lib narrow path file w).2.nextFd = w.nextFd ∧
    ((loadOpened lib narrow path file w).2.trace = w.trace ∨
     (loadOpened lib narrow path file w).2.trace = w.trace ++ [.decode file]) := by
  cases hreg : imageCoders lib (dirFileExt path).2.2 with
  | none => simp [loadOpened_unsupported lib narrow path file w hreg]
  | some coder =>
    rcases hdec : coder.decode file with ⟨img, err⟩
    cases err with
    | some e =>
      simp [loadOpened_decode_error lib narrow path file w coder e hreg (by rw [hdec])]
    | none =>
      cases hn : assertCroppable narrow img with
      | none => simp [loadOpened_uncroppable lib narrow path file w coder img hreg hdec hn]
      | some simg => simp [loadOpened_ok lib narrow path file w coder img simg hreg hdec hn]

theorem imageCoders_none_of_ne (lib : Codecs Image Opts) (ext : GoString)
    (hpng : ext ≠ "png".toList) (hgif : ext ≠ "gif".toList) (htiff : ext ≠ "tiff".toList) :
    imageCoders lib ext = none := by
  have h1 : ext ≠ ['p', 'n', 'g'] := hpng
  have h2 : ext ≠ ['g', 'i', 'f'] := hgif
  have h3 : ext ≠ ['t', 'i', 'f', 'f'] := htiff
  simp [imageCoders, h1, h2, h3]

/-- C2: a path that opens and whose extension is none of `png`, `gif`, `tiff` gives a
nil handle and `ErrUnsupportedFormat`; the only calls made are the open and the
close, so no decode function runs; the lookup is exact, so `PNG` and the empty
extension are not keys. -/
theorem LoadCroppable_unsupported_format (env : Env) (lib : Codecs Image Opts)
    (narrow : Image → Option CImage) (path : GoString) (w : World)
    (hopen : env.openErr path = none)
    (hpng : (dirFileExt path).2.2 ≠ "png".toList)
    (hgif : (dirFileExt path).2.2 ≠ "gif".toList)
    (htiff : (dirFileExt path).2.2 ≠ "tiff".toList) :
    (LoadCroppable env lib narrow path w).1 = (none, some ErrUnsupportedFormat) ∧
    (LoadCroppable env lib narrow path w).2.trace =
      w.trace ++ [.osOpen path w.nextFd, .close w.nextFd] ∧
    (∀ file, Event.decode file ∈ (LoadCroppable env lib narrow path w).2.trace →
      Event.decode file ∈ w.trace) ∧
    imageCoders lib "PNG".toList = none ∧ imageCoders lib "".toList = none := by
  have hreg := imageCoders_none_of_ne lib _ hpng hgif htiff
  rw [LoadCroppable_opened env lib narrow path w hopen,
    loadOpened_unsupported lib narrow path _ _ hreg]
  refine ⟨rfl, by simp [fileClose], ?_, rfl, rfl⟩
  intro file hmem
  simpa [fileClose] using hmem

/-- Witness of C2 at `/img/photo.PNG`, whose extension is `PNG`. -/
theorem LoadCroppable_unsupported_format_witness :
    (LoadCroppable demoEnv demoLib demoNarrow "/img/photo.PNG".toList demoWorld).1
      = (none, some ErrUnsupportedFormat) :=
  (LoadCroppable_unsupported_format demoEnv demoLib demoNarrow "/img/photo.PNG".toList demoWorld
    (by decide) (by decide) (by decide) (by decide)).1

/-- C3: when the path opens, its extension is registered and the registered decode
function returns the error `e`, the result is a nil handle and an error that
`errors.Is` identifies as `ErrImageLoadFailed` and whose message is the message
of `e` followed by `: unable to load image`. -/
theorem LoadCroppable_decode_failure (env : Env) (lib : Codecs Image Opts)
    (narrow : Image → Option CImage) (path : GoString) (w : World)
    (coder : imageCoder Image) (e : GoError)
    (hopen : env.openErr path = none)
    (hreg : imageCoders lib (dirFileExt path).2.2 = some coder)
    (hdec : (coder.decode ⟨w.nextFd, path⟩).2 = some e) :
    ∃ err, (LoadCroppable env lib narrow path w).1 = (none, some err) ∧
      errorsIs err ErrImageLoadFailed = true ∧
      err.Error = e.Error ++ ": unable to load image".toList ∧
      (∃ rest, err.Error = e.Error ++ rest) := by
  rw [LoadCroppable_opened env lib narrow path w hopen,
    loadOpened_decode_error lib narrow path _ _ coder e hreg hdec]
  refine ⟨fmtErrorf_s_w e.Error ErrImageLoadFailed, rfl, ?_, ?_, ?_⟩
  · simp [fmtErrorf_s_w, errorsIs, ErrImageLoadFailed]
  · simp only [fmtErrorf_s_w, GoError.Error, ErrImageLoadFailed, List.append_assoc]
    rfl
  · exact ⟨[':', ' '] ++ ErrImageLoadFailed.Error, by
      simp [fmtErrorf_s_w, GoError.Error]⟩

/-- Witness of C3 at `/img/bad.png`, which the PNG decoder rejects. -/
theorem LoadCroppable_decode_failure_witness :
    ∃ err, (LoadCroppable demoEnv demoLib demoNarrow "/img/bad.png".toList demoWorld).1
        = (none, some err) ∧
      errorsIs err ErrImageLoadFailed = true ∧
      err.Error = "png: invalid format: not a PNG file".toList
        ++ ": unable to load image".toList ∧
      (∃ rest, err.Error = "png: invalid format: not a PNG file".toList ++ rest) :=
  LoadCroppable_decode_failure demoEnv demoLib demoNarrow "/img/bad.png".toList demoWorld
    { decode := demoLib.pngDecode, encode := demoLib.pngEncode }
    (.errorString 9 "png: invalid format: not a PNG file".toList) (by decide) rfl rfl

/-- C4: when the path opens, its extension is registered and the image decoded
without error does not satisfy `CroppableImage`, the result is a nil handle and
the error `ErrImageUncroppable`; the call returns. -/
theorem LoadCroppable_uncroppable (env : Env) (lib : Codecs Image Opts)
    (narrow : Image → Option CImage) (path : GoString) (w : World)
    (coder : imageCoder Image) (img : Option Image)
    (hopen : env.openErr path = none)
    (hreg : imageCoders lib (dirFileExt path).2.2 = some coder)
    (hdec : coder.decode ⟨w.nextFd, path⟩ = (img, none))
    (hn : assertCroppable narrow img = none) :
    (LoadCroppable env lib narrow path w).1 = (none, some ErrImageUncroppable) := by
  rw [LoadCroppable_opened env lib narrow path w hopen,
    loadOpened_uncroppable lib narrow path _ _ coder img hreg hdec hn]

/-- Witness of C4 at `/img/odd.png`, which decodes to an image that cannot be cropped. -/
theorem LoadCroppable_uncroppable_witness :
    (LoadCroppable demoEnv demoLib demoNarrow "/img/odd.png".toList demoWorld).1
      = (none, some ErrImageUncroppable) :=
  LoadCroppable_uncroppable demoEnv demoLib demoNarrow "/img/odd.png".toList demoWorld
    { decode := demoLib.pngDecode, encode := demoLib.pngEncode } (some 3)
    (by decide) rfl rfl rfl

/-- C5: when `LoadCroppable` returns no error, it returns a handle whose `Dir`,
`Name` and `Format` are the three results of `dirFileExt`, whose `Format` is a key
of the registry, whose `Cropper` is the narrowed image that the decode function
of that entry produced from the opened file, and whose `Encode` is the encode
function of the same entry. -/
theorem LoadCroppable_success_handle (env : Env) (lib : Codecs Image Opts)
    (narrow : Image → Option CImage) (path : GoString) (w : World)
    (hok : (LoadCroppable env lib narrow path w).1.2 = none) :
    ∃ c coder img, (LoadCroppable env lib narrow path w).1.1 = some c ∧
      (c.Dir, c.Name, c.Format) = dirFileExt path ∧
      imageCoders lib c.Format = some coder ∧
      coder.decode ⟨w.nextFd, path⟩ = (img, none) ∧
      assertCroppable narrow img = some c.Cropper ∧
      c.Encode = coder.encode := by
  cases hopen : env.openErr path with
  | some e =>
    simp [LoadCroppable, osOpen_error env path w e hopen] at hok
  | none =>
    rw [LoadCroppable_opened env lib narrow path w hopen] at hok ⊢
    cases hreg : imageCoders lib (dirFileExt path).2.2 with
    | none =>
      rw [loadOpened_unsupported lib narrow path _ _ hreg] at hok
      simp at hok
    | some coder =>
      rcases hdec : coder.decode ⟨w.nextFd, path⟩ with ⟨img, err⟩
      cases err with
      | some e =>
        rw [loadOpened_decode_error lib narrow path _ _ coder e hreg (by rw [hdec])] at hok
        simp at hok
      | none =>
        cases hn : assertCroppable narrow img with
        | none =>
          rw [loadOpened_uncroppable lib narrow path _ _ coder img hreg hdec hn] at hok
          simp at hok
        | some simg =>
          rw [loadOpened_ok lib narrow path _ _ coder img simg hreg hdec hn]
          exact ⟨_, coder, img, rfl, rfl, hreg, hdec, hn, rfl⟩

/-- Witness of C5 at `/img/cat.gif`. -/
theorem LoadCroppable_success_handle_witness :
    ∃ c coder img,
      (LoadCroppable demoEnv demoLib demoNarrow "/img/cat.gif".toList demoWorld).1.1 = some c ∧
      (c.Dir, c.Name, c.Format) = dirFileExt "/img/cat.gif".toList ∧
      imageCoders demoLib c.Format = some coder ∧
      coder.decode ⟨demoWorld.nextFd, "/img/cat.gif".toList⟩ = (img, none) ∧
      assertCroppable demoNarrow img = some c.Cropper ∧
      c.Encode = coder.encode :=
  LoadCroppable_success_handle demoEnv demoLib demoNarrow "/img/cat.gif".toList demoWorld rfl

/-- C6: when `os.Open` fails with `e`, the result is a nil handle and `e` itself, and
nothing else is called; this holds for every path, so also for a path whose
extension is not registered: the result is `e`, not `ErrUnsupportedFormat`. -/
theorem LoadCroppable_open_failure (env : Env) (lib : Codecs Image Opts)
    (narrow : Image → Option CImage) (path : GoString) (w : World) (e : GoError)
    (hopen : env.openErr path = some e) :
    (LoadCroppable env lib narrow path w).1 = (none, some e) ∧
    (LoadCroppable env lib narrow path w).2.trace = w.trace ++ [.osOpenFailed path] ∧
    (imageCoders lib (dirFileExt path).2.2 = none →
      e ≠ ErrUnsupportedFormat →
      (LoadCroppable env lib narrow path w).1.2 ≠ some ErrUnsupportedFormat) := by
  have hL : LoadCroppable env lib narrow path w =
      ((none, some e), { w with trace := w.trace ++ [.osOpenFailed path] }) := by
    simp [LoadCroppable, osOpen_error env path w e hopen]
  rw [hL]
  refine ⟨rfl, rfl, ?_⟩
  intro _ hne h
  exact hne (Option.some.inj h)

/-- Witness of C6 at `/missing.bmp`: it cannot be opened and `bmp` is not registered. -/
theorem LoadCroppable_open_failure_witness :
    (LoadCroppable demoEnv demoLib demoNarrow "/missing.bmp".toList demoWorld).1
      = (none, some (.errorString 7 "open /missing.bmp: no such file or directory".toList)) ∧
    (LoadCroppable demoEnv demoLib demoNarrow "/missing.bmp".toList demoWorld).1.2
      ≠ some ErrUnsupportedFormat :=
  ⟨(LoadCroppable_open_failure demoEnv demoLib demoNarrow "/missing.bmp".toList demoWorld
      (.errorString 7 "open /missing.bmp: no such file or directory".toList) (by decide)).1,
   (LoadCroppable_open_failure demoEnv demoLib demoNarrow "/missing.bmp".toList demoWorld
      (.errorString 7 "open /missing.bmp: no such file or directory".toList) (by decide)).2.2
      rfl (by decide)⟩

/-- C9: every call of `LoadCroppable` leaves the open handles as it found them.  When
the open succeeds, whatever the body returns (success, unsupported extension,
decode failure, capability failure), the calls made are the open, at most one
decode of the opened file, and last the close of the handle that was opened. -/
theorem LoadCroppable_closes_file (env : Env) (lib : Codecs Image Opts)
    (narrow : Image → Option CImage) (path : GoString) (w : World) :
    (LoadCroppable env lib narrow path w).2.openFiles = w.openFiles ∧
    (env.openErr path = none →
      ∃ mid, (LoadCroppable env lib narrow path w).2.trace =
          w.trace ++ [.osOpen path w.nextFd] ++ mid ++ [.close w.nextFd] ∧
        (mid = [] ∨ mid = [.decode ⟨w.nextFd, path⟩])) := by
  cases hopen : env.openErr path with
  | some e =>
    have hL : LoadCroppable env lib narrow path w =
        ((none, some e), { w with trace := w.trace ++ [.osOpenFailed path] }) := by
      simp [LoadCroppable, osOpen_error env path w e hopen]
    rw [hL]
    exact ⟨rfl, fun h => by simp at h⟩
  | none =>
    rw [LoadCroppable_opened env lib narrow path w hopen]
    obtain ⟨ho, _, ht⟩ := loadOpened_world lib narrow path ⟨w.nextFd, path⟩
      { openFiles := w.nextFd :: w.openFiles, nextFd := w.nextFd + 1,
        trace := w.trace ++ [.osOpen path w.nextFd] }
    refine ⟨by simp [fileClose, ho], fun _ => ?_⟩
    rcases ht with ht | ht
    · exact ⟨[], by simp [fileClose, ht], Or.inl rfl⟩
    · exact ⟨[.decode ⟨w.nextFd, path⟩], by simp [fileClose, ht], Or.inr rfl⟩

/-- Witness of C9 at `/img/bad.png`, where decoding fails after the open. -/
theorem LoadCroppable_closes_file_witness :
    (LoadCroppable demoEnv demoLib demoNarrow "/img/bad.png".toList demoWorld).2.openFiles
      = demoWorld.openFiles ∧
    ∃ mid, (LoadCroppable demoEnv demoLib demoNarrow "/img/bad.png".toList demoWorld).2.trace =
        demoWorld.trace ++ [.osOpen "/img/bad.png".toList demoWorld.nextFd] ++ mid
          ++ [.close demoWorld.nextFd] ∧
      (mid = [] ∨ mid = [.decode ⟨demoWorld.nextFd, "/img/bad.png".toList⟩]) :=
  ⟨(LoadCroppable_closes_file demoEnv demoLib demoNarrow "/img/bad.png".toList demoWorld).1,
   (LoadCroppable_closes_file demoEnv demoLib demoNarrow "/img/bad.png".toList demoWorld).2
      (by decide)⟩

/-! ## `saveImage` -/

/-- C8: when `os.Create` fails with `e`, `saveImage` returns `e` itself and calls
nothing else, so `encode` does not run.  When it succeeds, the calls made are
the create, one `encode` on the created file, and the close of that file;
the result is what `encode` returned, error or nil, and the open handles are
as before the call. -/
theorem saveImage_contract (env : Env) (fp : GoString) (img : Option Image)
    (encode : File → Option Image → Option GoError) (w : World) :
    (∀ e, env.createErr fp = some e →
      (saveImage env fp img encode w).1 = some e ∧
      (saveImage env fp img encode w).2.trace = w.trace ++ [.osCreateFailed fp] ∧
      (saveImage env fp img encode w).2.openFiles = w.openFiles) ∧
    (env.createErr fp = none →
      (saveImage env fp img encode w).1 = encode ⟨w.nextFd, fp⟩ img ∧
      (saveImage env fp img encode w).2.trace =
        w.trace ++ [.osCreate fp w.nextFd, .encode ⟨w.nextFd, fp⟩, .close w.nextFd] ∧
      (saveImage env fp img encode w).2.openFiles = w.openFiles) := by
  constructor
  · intro e he
    simp [saveImage, osCreate, he]
  · intro he
    simp [saveImage, osCreate, he, callEncode, fileClose]

/-- Witness of C8: `/ro/out.png` cannot be created; `/tmp/out.png` can, and the encoder
fails on the image `5`. -/
theorem saveImage_contract_witness :
    ((saveImage demoEnv "/ro/out.png".toList (some 4) demoLib.pngEncode demoWorld).1
        = some (.errorString 8 "open /ro/out.png: permission denied".toList) ∧
      (saveImage demoEnv "/ro/out.png".toList (some 4) demoLib.pngEncode demoWorld).2.trace
        = demoWorld.trace ++ [.osCreateFailed "/ro/out.png".toList] ∧
      (saveImage demoEnv "/ro/out.png".toList (some 4) demoLib.pngEncode demoWorld).2.openFiles
        = demoWorld.openFiles) ∧
    ((saveImage demoEnv "/tmp/out.png".toList (some 5) demoLib.pngEncode demoWorld).1
        = demoLib.pngEncode ⟨demoWorld.nextFd, "/tmp/out.png".toList⟩ (some 5) ∧
      (saveImage demoEnv "/tmp/out.png".toList (some 5) demoLib.pngEncode demoWorld).2.trace
        = demoWorld.trace ++ [.osCreate "/tmp/out.png".toList demoWorld.nextFd,
            .encode ⟨demoWorld.nextFd, "/tmp/out.png".toList⟩, .close demoWorld.nextFd] ∧
      (saveImage demoEnv "/tmp/out.png".toList (some 5) demoLib.pngEncode demoWorld).2.openFiles
        = demoWorld.openFiles) :=
  ⟨(saveImage_contract demoEnv "/ro/out.png".toList (some 4) demoLib.pngEncode demoWorld).1
      (.errorString 8 "open /ro/out.png: permission denied".toList) (by decide),
   (saveImage_contract demoEnv "/tmp/out.png".toList (some 5) demoLib.pngEncode demoWorld).2
      (by decide)⟩

end LoaderFacts

end Gocrop
